import Mathlib

/-!
Verification development for the video rendering service: the Job Manager
(queueing, persistence, crash recovery, webhook delivery) and the
Composition Engine (transition chain, Ken Burns filters, duration
derivation, TTS provider fallback), together with the HTTP submission
validator. Every definition is a shallow embedding of the corresponding
JavaScript source; JS numbers are modelled as rationals, absent object
properties as Option, and JS truthiness-based defaulting (the || operator)
as an explicit helper.
-/

/-- Model of the JS expression x || d for a numeric property x that may be
absent: undefined and 0 are falsy, so both select the default d. -/
def jsOrQ (x : Option ℚ) (d : ℚ) : ℚ :=
  match x with
  | none => d
  | some v => if v = 0 then d else v

/-- Transition descriptor as read by the composition engine: a type string
(present iff the JS property is truthy) and an optional duration. -/
structure Transition where
  type : Option String
  duration : Option ℚ
deriving Repr, DecidableEq

/-- Processed clip entry handed to buildTransitionChain: its effective
duration in seconds and its (optional) transition descriptor. -/
structure PClip where
  effectiveDuration : ℚ
  transition : Option Transition
deriving Repr, DecidableEq

/-- Supported xfade transition types (XFADE_TYPES in composition-engine). -/
def XFADE_TYPES : List String :=
  ["fade", "fadeblack", "fadewhite", "fadegrays",
   "slideleft", "slideright", "slideup", "slidedown",
   "wipeleft", "wiperight", "wipeup", "wipedown",
   "smoothleft", "smoothright", "smoothup", "smoothdown",
   "circlecrop", "circleopen", "circleclose",
   "dissolve", "pixelize", "radial", "hblur",
   "wipetl", "wipetr", "wipebl", "wipebr"]

/-- Transition type actually emitted into the xfade filter: an unknown type
falls back to fade (XFADE_TYPES.includes(trans.type) ? trans.type : fade). -/
def resolveXfadeType (t : String) : String :=
  if XFADE_TYPES.contains t then t else "fade"

/-- Typed representation of the filter-graph entries pushed by
buildTransitionChain (the textual serialization carries no further data
relevant to timing). -/
inductive VFilter where
  | concatAll (n : ℕ)
  | xfadePair (ty : String) (dur offset : ℚ)
  | concatPair
deriving Repr, DecidableEq

/-- One iteration of the pairwise loop in buildTransitionChain: the
accumulator holds the running offset and the filters pushed so far. -/
def chainStep (acc : ℚ × List VFilter) (c : PClip) : ℚ × List VFilter :=
  match c.transition with
  | some t =>
    match t.type with
    | some ty =>
      let d := jsOrQ t.duration (1/2)
      let off := max 0 (acc.1 - d)
      (off + c.effectiveDuration, acc.2 ++ [VFilter.xfadePair (resolveXfadeType ty) d off])
    | none => (acc.1 + c.effectiveDuration, acc.2 ++ [VFilter.concatPair])
  | none => (acc.1 + c.effectiveDuration, acc.2 ++ [VFilter.concatPair])

/-- Check clips.some(c => c.transition): whether any clip carries a
transition descriptor. -/
def hasAnyTransition (clips : List PClip) : Bool :=
  clips.any (fun c => c.transition.isSome)

/-- Embedding of buildTransitionChain: with no transitions anywhere, a
single n-way concat whose duration is the sum of effective durations;
otherwise the pairwise xfade/concat loop seeded with the first clip.
Returns none for the empty list, where the JS code would throw reading
clips[0]. The result is the total timeline duration together with the
pushed filter entries. -/
def buildTransitionChain (clips : List PClip) : Option (ℚ × List VFilter) :=
  if hasAnyTransition clips then
    match clips with
    | [] => none
    | c0 :: rest => some (rest.foldl chainStep (c0.effectiveDuration, []))
  else
    some ((clips.map (fun c => c.effectiveDuration)).sum, [VFilter.concatAll clips.length])

/-- Overlap charged by the chain for one clip: the defaulted transition
duration when the clip carries a typed transition, 0 otherwise. -/
def typedOverlap (c : PClip) : ℚ :=
  match c.transition with
  | some t =>
    match t.type with
    | some _ => jsOrQ t.duration (1/2)
    | none => 0
  | none => 0

/-- Sum of the transition overlaps charged over a clip list. -/
def overlapSum (l : List PClip) : ℚ := (l.map typedOverlap).sum

/-- Sum of effective clip durations. -/
def sumEff (l : List PClip) : ℚ := (l.map (fun c => c.effectiveDuration)).sum

/-- Decidable statement that, starting from running offset off, no
transition duration in the remaining clip list exceeds the running offset
accumulated before it, i.e. the clamp max(0, offset - dur) never engages. -/
def noClampB (off : ℚ) : List PClip → Bool
  | [] => true
  | c :: rest =>
    match c.transition with
    | some t =>
      match t.type with
      | some _ =>
        let d := jsOrQ t.duration (1/2)
        decide (d ≤ off) && noClampB (off - d + c.effectiveDuration) rest
      | none => noClampB (off + c.effectiveDuration) rest
    | none => noClampB (off + c.effectiveDuration) rest

/-! Job Manager model (job-manager source: JobManager class). Timestamps
are modelled as naturals (ISO strings compare chronologically), the jobs
Map as a list in insertion order (Map iteration order), and console
logging and timing metrics are elided. -/

/-- Job status values used by the Job Manager. -/
inductive JStatus where
  | queued
  | preparing
  | processing
  | done
  | failed
  | cancelled
deriving Repr, DecidableEq

/-- Result object produced by an engine run and decorated by executeJob. -/
structure RunResult where
  outputFile : Option String
  url : Option String
  thumbnailFile : Option String
  thumbnailUrl : Option String
  uploadError : Option String
deriving Repr, DecidableEq

/-- Persisted job record. payload is represented by the two fields the Job
Manager itself reads (webhook_url and mode); voDuration models the
dynamically attached property read by the composition engine at the
finalDuration computation (the source spells it with a leading
underscore), and stack models the property deleted by sanitization. -/
structure JobRec where
  id : String
  status : JStatus
  created_at : ℕ
  updated_at : Option ℕ
  payload_webhook_url : Option String
  payload_mode : Option String
  error : Option String
  result : Option RunResult
  stack : Option String
  voDuration : Option ℚ
deriving Repr, DecidableEq

/-- Job created by createJob: status queued, no error/result/stack, and no
voDuration property — nothing in the codebase ever assigns it. -/
def createJobRec (id : String) (now : ℕ) (webhook : Option String) (mode : Option String) :
    JobRec :=
  { id := id, status := JStatus.queued, created_at := now, updated_at := none,
    payload_webhook_url := webhook, payload_mode := mode,
    error := none, result := none, stack := none, voDuration := none }

/-- In-memory Job Manager state: the jobs map (insertion order) and the
active-job counter. -/
structure JMState where
  jobs : List JobRec
  activeJobs : ℕ
deriving Repr, DecidableEq

/-- Lookup this.jobs.get(id). -/
def findJob (jobs : List JobRec) (id : String) : Option JobRec :=
  jobs.find? (fun j => j.id == id)

/-- In-place mutation of the Map entry with the given id. -/
def setJob (jobs : List JobRec) (id : String) (f : JobRec → JobRec) : List JobRec :=
  jobs.map (fun j => if j.id == id then f j else j)

/-- Check used before decrementing activeJobs:
[processing, preparing].includes(previousStatus). -/
def isActive (s : JStatus) : Bool :=
  s == JStatus.processing || s == JStatus.preparing

/-- The extra object merged into the job by Object.assign in
updateJobStatus; only the error and result keys are ever passed. -/
structure Extra where
  error : Option String
  result : Option RunResult
deriving Repr, DecidableEq

/-- Empty extra object. -/
def noExtra : Extra := { error := none, result := none }

/-- Object.assign(job, extra): provided keys overwrite, absent keys leave
the record unchanged. -/
def applyExtra (j : JobRec) (e : Extra) : JobRec :=
  { j with
    error := match e.error with | some m => some m | none => j.error,
    result := match e.result with | some r => some r | none => j.result }

/-- Comparator used by processQueue: sort by created_at ascending. -/
def createdLe (a b : JobRec) : Prop := a.created_at ≤ b.created_at

instance : DecidableRel createdLe := fun a b => Nat.decLe a.created_at b.created_at

instance : IsTotal JobRec createdLe := ⟨fun a b => Nat.le_total a.created_at b.created_at⟩

instance : IsTrans JobRec createdLe := ⟨fun _ _ _ hab hbc => Nat.le_trans hab hbc⟩

/-- Array.from(this.jobs.values()).sort((a, b) => created_at difference). -/
def sortByCreated (jobs : List JobRec) : List JobRec :=
  List.insertionSort createdLe jobs

/-- FIFO selection in processQueue: the first queued job in created_at
order, available only when activeJobs is below the concurrency limit. -/
def nextQueuedJob (st : JMState) (limit : ℕ) : Option JobRec :=
  if st.activeJobs ≥ limit then none
  else (sortByCreated st.jobs).find? (fun j => j.status == JStatus.queued)

/-- Synchronous prefix of processQueue: when a slot is free and a queued
job exists, increment activeJobs and set that job to preparing (the
updateJobStatus call it makes runs its status assignment synchronously and
performs no further state change for a non-terminal status; the
executeJob launch is asynchronous and outside this state model). -/
def processQueueStep (st : JMState) (limit now : ℕ) : JMState :=
  match nextQueuedJob st limit with
  | none => st
  | some nj =>
    { jobs := setJob st.jobs nj.id
        (fun j => { j with status := JStatus.preparing, updated_at := some now }),
      activeJobs := st.activeJobs + 1 }

/-- Jobs map after the in-place mutation at the start of updateJobStatus:
assign the new status, merge extra, stamp updated_at. -/
def updateJobStatusJobs (st : JMState) (id : String) (status : JStatus)
    (extra : Extra) (now : ℕ) : List JobRec :=
  setJob st.jobs id
    (fun j => { applyExtra j extra with status := status, updated_at := some now })

/-- Active counter after a terminal transition: decremented (clamped at 0,
which Nat subtraction models) only when the previous status was active. -/
def decActive (st : JMState) (prev : JStatus) : ℕ :=
  if isActive prev then st.activeJobs - 1 else st.activeJobs

/-- Embedding of updateJobStatus: unconditionally assign the new status,
merge extra, stamp updated_at, persist, then for done/failed decrement the
counter when the job was active and rescan the queue; for cancelled do the
same plus immediate temp cleanup. There is no guard on the previous
status. -/
def updateJobStatus (st : JMState) (limit : ℕ) (id : String) (status : JStatus)
    (extra : Extra) (now : ℕ) : JMState :=
  match findJob st.jobs id with
  | none => st
  | some job =>
    if status == JStatus.done || status == JStatus.failed then
      processQueueStep
        { jobs := updateJobStatusJobs st id status extra now,
          activeJobs := decActive st job.status } limit now
    else if status == JStatus.cancelled then
      processQueueStep
        { jobs := updateJobStatusJobs st id status extra now,
          activeJobs := decActive st job.status } limit now
    else { jobs := updateJobStatusJobs st id status extra now,
           activeJobs := st.activeJobs }

/-- Crash-recovery mapping applied to each persisted job during init: a job
found in processing or preparing is force-failed with the fixed reason. -/
def recoverJob (j : JobRec) (now : ℕ) : JobRec :=
  if j.status == JStatus.processing || j.status == JStatus.preparing then
    { j with
        status := JStatus.failed,
        error := some ("Server restart during execution"),
        updated_at := some now }
  else j

/-- Embedding of init up to the point its body completes: load persisted
jobs applying crash recovery, then run the synchronous prefix of the
processQueue call that resumes queued jobs. -/
def initJM (persisted : List JobRec) (limit now : ℕ) : JMState :=
  processQueueStep
    { jobs := persisted.map (fun j => recoverJob j now), activeJobs := 0 }
    limit now

/-- cancelJob: 404 when unknown, otherwise an unconditional transition to
cancelled via updateJobStatus. -/
def cancelJob (st : JMState) (limit : ℕ) (id : String) (now : ℕ) :
    Except String JMState :=
  match findJob st.jobs id with
  | none => Except.error ("Job not found")
  | some _ => Except.ok (updateJobStatus st limit id JStatus.cancelled noExtra now)

/-- Observable side effects of one updateJobStatus call, in program order.
Nested asynchronous work (the webhook retry loop, the queue rescan) is
represented by its initiation event. -/
inductive JMEvent where
  | emitProgress (id : String) (stage : JStatus)
  | persist (id : String) (status : JStatus)
  | webhookPost (url : String) (id : String) (status : JStatus)
  | cleanupTemp (id : String)
  | queueScan
deriving Repr, DecidableEq

/-- Effect trace of updateJobStatus: progress emit, then the awaited
persistJob write, then (for terminal statuses) the webhook initiation and
queue rescan, or (for cancelled) cleanup and rescan. -/
def updateJobStatusEvents (st : JMState) (id : String) (status : JStatus) :
    List JMEvent :=
  match findJob st.jobs id with
  | none => []
  | some job =>
    [JMEvent.emitProgress id status, JMEvent.persist id status] ++
    (if status == JStatus.done || status == JStatus.failed then
      (match job.payload_webhook_url with
       | some u => [JMEvent.webhookPost u id status]
       | none => []) ++ [JMEvent.queueScan]
     else if status == JStatus.cancelled then
       [JMEvent.cleanupTemp id, JMEvent.queueScan]
     else [])

/-- Sanitized copy built by getJob and sendWebhookWithRetry: the stack
property is deleted; everything else, including any result paths and the
error string, is passed through. -/
def sanitizeJob (j : JobRec) : JobRec := { j with stack := none }

/-- getJob: lookup plus sanitization. -/
def getJobM (st : JMState) (id : String) : Option JobRec :=
  (findJob st.jobs id).map sanitizeJob

/-- Response body of the GET jobs result route. -/
structure ResultResponse where
  status : String
  outputFile : Option String
  url : Option String
  thumbnailFile : Option String
  thumbnailUrl : Option String
  uploadError : Option String
deriving Repr, DecidableEq

/-- Embedding of the GET jobs result handler: 404 when unknown, 400 when
not done or without result, otherwise the result fields verbatim —
including the outputFile working-directory path. -/
def jobResultResponse (st : JMState) (id : String) :
    Except (ℕ × String) ResultResponse :=
  match getJobM st id with
  | none => Except.error (404, "Job not found")
  | some job =>
    if job.status == JStatus.done then
      match job.result with
      | some r =>
        Except.ok { status := "done", outputFile := r.outputFile, url := r.url,
                    thumbnailFile := r.thumbnailFile, thumbnailUrl := r.thumbnailUrl,
                    uploadError := r.uploadError }
      | none => Except.error (400, "Job not finished or no result available.")
    else Except.error (400, "Job not finished or no result available.")

/-- path.join on posix. -/
def pathJoin (a b : String) : String := a ++ "/" ++ b

/-- Working directory of a job in the composition engine. -/
def compositionWorkDir (temp id : String) : String := pathJoin temp id

/-- Output file path produced by the composition engine run. -/
def compositionOutputFile (temp id : String) : String :=
  pathJoin (compositionWorkDir temp id) ("output.mp4")

/-! Composition engine model: request clips, target duration derivation,
last-clip freeze padding and the Ken Burns zoom-pan filter, as the run
method computes them. -/

/-- Truthiness of an optional string property (absent and empty are
falsy). -/
def jsTruthyS (s : Option String) : Bool :=
  match s with
  | none => false
  | some v => !(v == "")

/-- Clip descriptor as submitted in composition.clips and read back by the
run method (the engine reads effect, duration, speed, transition,
blur_background and the isImage flag from these request objects). -/
structure CompClip where
  url : Option String
  query : Option String
  type : Option String
  duration : Option ℚ
  speed : Option ℚ
  transition : Option Transition
  blur_background : Option Bool
  effect : Option String
  isImage : Option Bool
deriving Repr, DecidableEq

/-- Clip descriptor with every property absent. -/
def emptyCompClip : CompClip :=
  { url := none, query := none, type := none, duration := none, speed := none,
    transition := none, blur_background := none, effect := none, isImage := none }

/-- Sum of declared per-clip durations, each defaulting to 5:
clips.reduce((acc, c) => acc + (c.duration || 5), 0). -/
def totalVisualDuration (clips : List CompClip) : ℚ :=
  (clips.map (fun c => jsOrQ c.duration 5)).sum

/-- Authoritative output duration computed by run: the maximum of the
visual sum and the voDuration property read off the job —
Math.max(totalVisualDuration, job voDuration or 0). -/
def compFinalDuration (voDuration : Option ℚ) (clips : List CompClip) : ℚ :=
  max (totalVisualDuration clips) (jsOrQ voDuration 0)

/-- Freeze-extension applied to the last clip: a tpad stop_duration of
finalDuration - totalVisualDuration is pushed only when finalDuration
exceeds the visual sum. -/
def lastClipPad (voDuration : Option ℚ) (clips : List CompClip) : Option ℚ :=
  if totalVisualDuration clips < compFinalDuration voDuration clips then
    some (compFinalDuration voDuration clips - totalVisualDuration clips)
  else none

/-- The four Ken Burns presets of the zoompan switch. -/
inductive KBPreset where
  | zoomIn
  | zoomOut
  | panLeft
  | panRight
deriving Repr, DecidableEq

/-- Preset selection: clip.effect defaulted to ken_burns_zoom_in, with the
switch falling through to zoom-in for any unrecognized value. -/
def kenBurnsPreset (effect : Option String) : KBPreset :=
  match effect with
  | some e =>
    if e == "ken_burns_zoom_out" then KBPreset.zoomOut
    else if e == "ken_burns_pan_right" then KBPreset.panRight
    else if e == "ken_burns_pan_left" then KBPreset.panLeft
    else KBPreset.zoomIn
  | none => KBPreset.zoomIn

/-- Typed zoompan filter emitted for an image clip: the d parameter (frame
count) is frames = dur * template.fps, with no rounding applied. -/
structure ZoomPan where
  preset : KBPreset
  frames : ℚ
  outW : ℕ
  outH : ℕ
  fps : ℚ
deriving Repr, DecidableEq

/-- Construction of the zoompan filter for an image clip of the given
duration at the template frame rate and output size. -/
def kenBurnsZoomPan (effect : Option String) (dur fps : ℚ) (w h : ℕ) : ZoomPan :=
  { preset := kenBurnsPreset effect, frames := dur * fps,
    outW := w, outH := h, fps := fps }

/-- Zoompan filter for a request clip: duration defaulted to 5 as in
const dur = clip.duration || 5. -/
def clipZoomPan (c : CompClip) (fps : ℚ) (w h : ℕ) : ZoomPan :=
  kenBurnsZoomPan c.effect (jsOrQ c.duration 5) fps w h

/-! HTTP submission validator model (the POST jobs handler). The URL
parser (new URL plus protocol check) is passed in as a predicate; the
typeof guards on blur_background and transition cannot fail in this typed
embedding and are omitted. -/

/-- Voice-over request object (only the text property is validated). -/
structure VOReq where
  text : Option String
deriving Repr, DecidableEq

/-- Subtitle entry: text plus numeric start and end (absent models both a
missing property and a non-number). -/
structure SubReq where
  text : Option String
  start : Option ℚ
  sEnd : Option ℚ
deriving Repr, DecidableEq

/-- Overlay entry (only url is validated). -/
structure OverlayReq where
  url : Option String
deriving Repr, DecidableEq

/-- Assembly timeline segment. -/
structure AsmSeg where
  source_url : Option String
deriving Repr, DecidableEq

/-- Assembly request object. -/
structure AsmReq where
  timeline : Option (List AsmSeg)
deriving Repr, DecidableEq

/-- Composition request object (the validated fields). -/
structure CompReq where
  clips : Option (List CompClip)
  input : Option String
  overlays : Option (List OverlayReq)
  output_format : Option String
  quality : Option String
  subtitles : Option (List SubReq)
  voice_over : Option VOReq
deriving Repr, DecidableEq

/-- Composition request with every property absent. -/
def emptyCompReq : CompReq :=
  { clips := none, input := none, overlays := none, output_format := none,
    quality := none, subtitles := none, voice_over := none }

/-- Job submission payload. -/
structure PayloadReq where
  mode : Option String
  composition : Option CompReq
  assembly : Option AsmReq
  webhook_url : Option String
deriving Repr, DecidableEq

/-- Per-clip validation: url or query required, http-prefixed urls parsed,
speed bounded to 0.25..4.0. The transition object is only checked to be an
object — its type string is not validated against any list. -/
def checkClip (validUrl : String → Bool) (c : CompClip) : Except String Unit :=
  if !(jsTruthyS c.url) && !(jsTruthyS c.query) then
    Except.error ("Each clip must have a url or query field.")
  else if jsTruthyS c.url && (c.url.getD ("")).startsWith ("http") &&
      !(validUrl (c.url.getD (""))) then
    Except.error ("Invalid clip URL")
  else
    match c.speed with
    | some sp =>
      if sp < 1/4 ∨ 4 < sp then
        Except.error ("clip.speed must be between 0.25 and 4.0")
      else Except.ok ()
    | none => Except.ok ()

/-- The for-of loop over clips with early return on the first error. -/
def checkClipsLoop (validUrl : String → Bool) : List CompClip → Except String Unit
  | [] => Except.ok ()
  | c :: rest =>
    match checkClip validUrl c with
    | Except.error e => Except.error e
    | Except.ok _ => checkClipsLoop validUrl rest

/-- Overlay loop: each overlay must have a url. -/
def checkOverlayList : List OverlayReq → Except String Unit
  | [] => Except.ok ()
  | o :: rest =>
    if !(jsTruthyS o.url) then Except.error ("Each overlay must have a url.")
    else checkOverlayList rest

/-- Subtitle loop: each entry needs truthy text and numeric start/end. -/
def checkSubtitleList : List SubReq → Except String Unit
  | [] => Except.ok ()
  | s :: rest =>
    if !(jsTruthyS s.text) || s.start.isNone || s.sEnd.isNone then
      Except.error ("Each subtitle must have text, start, and end.")
    else checkSubtitleList rest

/-- Assembly segment loop: each segment needs a parseable source_url. -/
def checkSegmentList (validUrl : String → Bool) : List AsmSeg → Except String Unit
  | [] => Except.ok ()
  | s :: rest =>
    if !(jsTruthyS s.source_url) || !(validUrl (s.source_url.getD (""))) then
      Except.error ("Invalid segment URL")
    else checkSegmentList validUrl rest

/-- Valid output_format values. -/
def VALID_FORMATS : List String :=
  ["shorts", "reels", "tiktok", "landscape", "youtube", "square",
   "instagram", "portrait_4_5"]

/-- Clips-or-input check: clip count bounded to 1..20 then the per-clip
loop; without a clips array an input URL is required. -/
def checkClipsField (validUrl : String → Bool) (comp : CompReq) : Except String Unit :=
  match comp.clips with
  | some cl =>
    if cl.length = 0 ∨ 20 < cl.length then Except.error ("clips must have 1-20 items.")
    else checkClipsLoop validUrl cl
  | none =>
    if !(jsTruthyS comp.input) then
      Except.error ("Either clips array or input URL required.")
    else Except.ok ()

/-- Overlays check: at most 5, each with a url. -/
def checkOverlaysField (comp : CompReq) : Except String Unit :=
  match comp.overlays with
  | some ovs =>
    if 5 < ovs.length then Except.error ("Maximum 5 overlays allowed.")
    else checkOverlayList ovs
  | none => Except.ok ()

/-- output_format check against the enumerated list. -/
def checkFormatField (comp : CompReq) : Except String Unit :=
  if jsTruthyS comp.output_format &&
      !(VALID_FORMATS.contains (comp.output_format.getD (""))) then
    Except.error ("Invalid output_format.")
  else Except.ok ()

/-- quality check: draft or full. -/
def checkQualityField (comp : CompReq) : Except String Unit :=
  if jsTruthyS comp.quality &&
      !((comp.quality.getD ("") == "draft") || (comp.quality.getD ("") == "full")) then
    Except.error ("quality must be draft or full.")
  else Except.ok ()

/-- subtitles check. -/
def checkSubtitlesField (comp : CompReq) : Except String Unit :=
  match comp.subtitles with
  | some l => checkSubtitleList l
  | none => Except.ok ()

/-- voice_over text ceiling: 5000 characters. -/
def checkVOField (comp : CompReq) : Except String Unit :=
  match comp.voice_over with
  | some vo =>
    if jsTruthyS vo.text ∧ 5000 < (vo.text.getD ("")).length then
      Except.error ("voice_over.text exceeds 5000 character limit.")
    else Except.ok ()
  | none => Except.ok ()

/-- Composition-specific validation in source order. -/
def compositionChecks (validUrl : String → Bool) (comp? : Option CompReq) :
    Except String Unit :=
  match comp? with
  | none => Except.error ("Missing composition object for composition mode.")
  | some comp => do
    checkClipsField validUrl comp
    checkOverlaysField comp
    checkFormatField comp
    checkQualityField comp
    checkSubtitlesField comp
    checkVOField comp

/-- Assembly-specific validation. -/
def assemblyChecks (validUrl : String → Bool) (a? : Option AsmReq) :
    Except String Unit :=
  match a? with
  | none => Except.error ("Assembly mode requires assembly.timeline array.")
  | some a =>
    match a.timeline with
    | none => Except.error ("Assembly mode requires assembly.timeline array.")
    | some tl =>
      if tl.length = 0 ∨ 50 < tl.length then
        Except.error ("timeline must have 1-50 segments.")
      else checkSegmentList validUrl tl

/-- Mode guard: payload.mode must be assembly or composition. -/
def modeOk (p : PayloadReq) : Bool :=
  match p.mode with
  | some m => (m == "assembly") || (m == "composition")
  | none => false

/-- Full validation sequence of the POST jobs handler. -/
def validateJobPayload (validUrl : String → Bool) (p : PayloadReq) :
    Except String Unit :=
  if !(modeOk p) then
    Except.error ("Invalid mode. Must be assembly or composition.")
  else do
    (if p.mode = some ("composition") then compositionChecks validUrl p.composition
     else Except.ok ())
    (if p.mode = some ("assembly") then assemblyChecks validUrl p.assembly
     else Except.ok ())
    (if jsTruthyS p.webhook_url && !(validUrl (p.webhook_url.getD (""))) then
       Except.error ("Invalid webhook_url.")
     else Except.ok ())

/-- Outcome of the POST jobs handler. -/
inductive PostJobsResult where
  | rejected (err : String)
  | created (status : JStatus)
deriving Repr, DecidableEq

/-- POST jobs: reject on any validation error, otherwise create the job
with status queued (jobManager.createJob). -/
def postJobs (validUrl : String → Bool) (p : PayloadReq) : PostJobsResult :=
  match validateJobPayload validUrl p with
  | Except.error e => PostJobsResult.rejected e
  | Except.ok _ => PostJobsResult.created JStatus.queued

/-! Narration (TTS) provider fallback model: the loop over
[requested, openai, huggingface, edge] with a tried set, key-based skips
for openai and huggingface, per-provider error capture and the final
all-failed error. -/

/-- The four generator backends reachable from the loop; any name other
than openai, huggingface or edge dispatches to the Kie generator. -/
inductive TTSBackend where
  | kie
  | openai
  | huggingface
  | edge
deriving Repr, DecidableEq

/-- Environment of one job: the outcome each backend would produce (an
audio url or a thrown error message) and which API keys are configured. -/
structure TTSEnv where
  kie : Except String String
  openai : Except String String
  huggingface : Except String String
  edge : Except String String
  hasOpenAIKey : Bool
  hasHFKey : Bool
deriving Repr

/-- Backend dispatched for a provider name. -/
def backendOf (p : String) : TTSBackend :=
  if p = "openai" then TTSBackend.openai
  else if p = "huggingface" then TTSBackend.huggingface
  else if p = "edge" then TTSBackend.edge
  else TTSBackend.kie

/-- Whether the provider is attempted at all: openai and huggingface are
skipped (continue) without their API key; edge and the Kie default are
always attempted. -/
def ttsEnabled (env : TTSEnv) (p : String) : Bool :=
  if p = "openai" then env.hasOpenAIKey
  else if p = "huggingface" then env.hasHFKey
  else true

/-- Outcome of invoking a backend in the given environment. -/
def outcomeOf (env : TTSEnv) : TTSBackend → Except String String
  | TTSBackend.kie => env.kie
  | TTSBackend.openai => env.openai
  | TTSBackend.huggingface => env.huggingface
  | TTSBackend.edge => env.edge

/-- Error thrown after the loop when no provider succeeded. -/
def ttsMsg (lastErr : Option String) : String :=
  "All TTS providers failed. Last error: " ++
    (match lastErr with | some m => m | none => "undefined")

/-- The fallback loop. State: remaining provider names, the tried set, the
last captured error, and the backends invoked so far (in order). Returns
the synthesis result and the invocation list. -/
def ttsGo (env : TTSEnv) :
    List String → List String → Option String → List TTSBackend →
      Except String String × List TTSBackend
  | [], _, lastErr, invs => (Except.error (ttsMsg lastErr), invs)
  | p :: rest, tried, lastErr, invs =>
    if p ∈ tried then ttsGo env rest tried lastErr invs
    else if !(ttsEnabled env p) then ttsGo env rest (p :: tried) lastErr invs
    else
      match outcomeOf env (backendOf p) with
      | Except.ok v => (Except.ok v, invs ++ [backendOf p])
      | Except.error e => ttsGo env rest (p :: tried) (some e) (invs ++ [backendOf p])

/-- Provider order: the requested provider (default kie) then openai,
huggingface and the self-hosted edge as last resort. -/
def ttsProviders (requested : String) : List String :=
  [requested, "openai", "huggingface", "edge"]

/-- Narration synthesis with provider fallback, as run performs it. -/
def runTTSFallback (env : TTSEnv) (requested : String) :
    Except String String × List TTSBackend :=
  ttsGo env (ttsProviders requested) [] none []

theorem chainStep_fold_duration (rest : List PClip) :
    ∀ (off : ℚ) (fs : List VFilter), noClampB off rest = true →
      (rest.foldl chainStep (off, fs)).1 = off + sumEff rest - overlapSum rest := by
  induction rest with
  | nil => intro off fs _; simp [sumEff, overlapSum]
  | cons c rest ih =>
    intro off fs h
    match hc : c.transition with
    | none =>
      simp only [noClampB, hc] at h
      simp only [List.foldl_cons, chainStep, hc]
      rw [ih (off + c.effectiveDuration) _ h]
      simp [sumEff, overlapSum, typedOverlap, hc]
      ring
    | some t =>
      match ht : t.type with
      | none =>
        simp only [noClampB, hc, ht] at h
        simp only [List.foldl_cons, chainStep, hc, ht]
        rw [ih (off + c.effectiveDuration) _ h]
        simp [sumEff, overlapSum, typedOverlap, hc, ht]
        ring
      | some ty =>
        simp only [noClampB, hc, ht] at h
        simp only [Bool.and_eq_true, decide_eq_true_eq] at h
        obtain ⟨hle, hrest⟩ := h
        simp only [List.foldl_cons, chainStep, hc, ht]
        have hmax : max 0 (off - jsOrQ t.duration (1/2)) = off - jsOrQ t.duration (1/2) :=
          max_eq_right (by linarith)
        rw [hmax]
        rw [ih (off - jsOrQ t.duration (1/2) + c.effectiveDuration) _ hrest]
        simp [sumEff, overlapSum, typedOverlap, hc, ht]
        ring

/-- C1: for a sequence of at least two processed clips where each clip
after the first may carry a transition whose duration is specified and
positive, provided no transition duration exceeds the running offset
accumulated before it (so the clamp of the xfade offset at 0 never
engages), the total timeline duration computed by buildTransitionChain
equals the sum of the effective durations minus the sum of the transition
overlaps of the clips that specify one. -/
theorem buildTransitionChain_total_duration
    (c0 : PClip) (rest : List PClip)
    (hn : rest ≠ [])
    (hpos : ∀ c ∈ rest, ∀ t, c.transition = some t → ∀ ty, t.type = some ty →
      ∃ d, t.duration = some d ∧ 0 < d)
    (hclamp : noClampB c0.effectiveDuration rest = true) :
    ∃ fs, buildTransitionChain (c0 :: rest) =
      some (sumEff (c0 :: rest) - overlapSum rest, fs) := by
  unfold buildTransitionChain
  by_cases htr : hasAnyTransition (c0 :: rest) = true
  · rw [if_pos htr]
    refine ⟨(rest.foldl chainStep (c0.effectiveDuration, [])).2, ?_⟩
    have hfold := chainStep_fold_duration rest c0.effectiveDuration [] hclamp
    have heq : (rest.foldl chainStep (c0.effectiveDuration, [])) =
        (sumEff (c0 :: rest) - overlapSum rest,
         (rest.foldl chainStep (c0.effectiveDuration, [])).2) := by
      apply Prod.ext
      · rw [hfold]
        simp only [sumEff, List.map_cons, List.sum_cons]
        try ring
      · rfl
    show some (rest.foldl chainStep (c0.effectiveDuration, [])) = _
    conv_lhs => rw [heq]
  · rw [if_neg htr]
    refine ⟨[VFilter.concatAll (c0 :: rest).length], ?_⟩
    have hnone : ∀ c ∈ (c0 :: rest), c.transition = none := by
      intro c hcmem
      simp only [hasAnyTransition, List.any_eq_true, not_exists] at htr
      push_neg at htr
      have := htr c hcmem
      cases hct : c.transition with
      | none => rfl
      | some t => rw [hct] at this; simp at this
    have hov : overlapSum rest = 0 := by
      unfold overlapSum
      have : ∀ c ∈ rest, typedOverlap c = 0 := by
        intro c hcmem
        unfold typedOverlap
        rw [hnone c (List.mem_cons_of_mem _ hcmem)]
      rw [List.map_congr_left (fun c hcmem => this c hcmem)]
      simp
    rw [hov]
    simp [sumEff]

/-- Witness for C1 at the spec example: two 5-second clips joined by one
fade transition of duration 0.5 yield total timeline duration 9.5 s. -/
theorem buildTransitionChain_total_duration_witness :
    (buildTransitionChain
        [⟨5, none⟩, ⟨5, some ⟨some ("fade"), some (1/2)⟩⟩]).map Prod.fst =
      some ((19 : ℚ)/2) := by
  have h := buildTransitionChain_total_duration ⟨5, none⟩
    [⟨5, some ⟨some ("fade"), some (1/2)⟩⟩]
    (by simp)
    (by
      intro c hc t htr ty hty
      simp only [List.mem_singleton] at hc
      subst hc
      simp only [Option.some.injEq] at htr
      exact ⟨1/2, by rw [← htr], by norm_num⟩)
    (by norm_num [noClampB, jsOrQ])
  have heq : sumEff [⟨5, none⟩, ⟨5, some ⟨some ("fade"), some (1/2)⟩⟩] -
      overlapSum [⟨5, some ⟨some ("fade"), some (1/2)⟩⟩] = (19 : ℚ)/2 := by
    norm_num [sumEff, overlapSum, typedOverlap, jsOrQ]
  rw [heq] at h
  obtain ⟨fs, hfs⟩ := h
  rw [hfs]
  rfl

theorem findJob_cons (x : JobRec) (xs : List JobRec) (i : String) :
    findJob (x :: xs) i = if x.id == i then some x else findJob xs i := by
  by_cases h : (x.id == i) = true
  · rw [if_pos h]
    exact List.find?_cons_of_pos _ h
  · rw [if_neg h]
    exact List.find?_cons_of_neg _ h

theorem findJob_setJob (l : List JobRec) (id1 id2 : String) (f : JobRec → JobRec)
    (hf : ∀ j, (f j).id = j.id) :
    findJob (setJob l id2 f) id1 =
      if id1 = id2 then (findJob l id1).map f else findJob l id1 := by
  induction l with
  | nil =>
    simp [findJob, setJob]
  | cons j t ih =>
    simp only [setJob, List.map_cons] at *
    by_cases hj2 : (j.id == id2) = true
    · rw [if_pos hj2, findJob_cons]
      have hid2 : j.id = id2 := by simpa using hj2
      by_cases hj1 : (j.id == id1) = true
      · have hid1 : j.id = id1 := by simpa using hj1
        have h12 : id1 = id2 := by rw [← hid1, hid2]
        rw [if_pos (by rw [hf j]; exact hj1), if_pos h12, findJob_cons, if_pos hj1]
        rfl
      · have h12 : ¬ id1 = id2 := by
          intro he
          exact hj1 (by simp [hid2, he])
        rw [if_neg (by rw [hf j]; exact hj1), if_neg h12, findJob_cons, if_neg hj1]
        rw [ih, if_neg h12]
    · rw [if_neg hj2, findJob_cons]
      by_cases hj1 : (j.id == id1) = true
      · have hid1 : j.id = id1 := by simpa using hj1
        have h12 : ¬ id1 = id2 := by
          intro he
          exact hj2 (by simp [hid1, he])
        rw [if_pos hj1, if_neg h12, findJob_cons, if_pos hj1]
      · rw [if_neg hj1, ih]
        by_cases h12 : id1 = id2
        · rw [if_pos h12, if_pos h12, findJob_cons, if_neg hj1]
        · rw [if_neg h12, if_neg h12, findJob_cons, if_neg hj1]

theorem setJob_ids (l : List JobRec) (id2 : String) (f : JobRec → JobRec)
    (hf : ∀ j, (f j).id = j.id) :
    (setJob l id2 f).map (fun j => j.id) = l.map (fun j => j.id) := by
  unfold setJob
  rw [List.map_map]
  apply List.map_congr_left
  intro j _
  simp only [Function.comp_apply]
  by_cases h : (j.id == id2) = true
  · rw [if_pos h]
    exact hf j
  · rw [if_neg h]

theorem findJob_eq_some_mem (l : List JobRec) (i : String) (j : JobRec)
    (h : findJob l i = some j) : j ∈ l ∧ j.id = i := by
  refine ⟨List.mem_of_find?_eq_some h, ?_⟩
  have := List.find?_some h
  simpa using this

theorem findJob_of_nodup_mem (l : List JobRec) (j : JobRec)
    (hids : (l.map (fun k => k.id)).Nodup) (hj : j ∈ l) :
    findJob l j.id = some j := by
  induction l with
  | nil => cases hj
  | cons x t ih =>
    rw [findJob_cons]
    rcases List.mem_cons.mp hj with rfl | hmem
    · rw [if_pos (by simp)]
    · by_cases hx : (x.id == j.id) = true
      · exfalso
        have hxid : x.id = j.id := by simpa using hx
        simp only [List.map_cons, List.nodup_cons] at hids
        exact hids.1 (hxid ▸ List.mem_map_of_mem (fun k => k.id) hmem)
      · rw [if_neg hx]
        simp only [List.map_cons, List.nodup_cons] at hids
        exact ih hids.2 hmem

theorem sorted_find_queued_minimal (l : List JobRec)
    (hs : l.Sorted createdLe) (nj : JobRec)
    (h : l.find? (fun j => j.status == JStatus.queued) = some nj) :
    nj.status = JStatus.queued ∧
      ∀ k ∈ l, k.status = JStatus.queued → nj.created_at ≤ k.created_at := by
  induction l with
  | nil => cases h
  | cons j t ih =>
    rw [List.sorted_cons] at hs
    by_cases hq : (j.status == JStatus.queued) = true
    · have h2 : (j :: t).find? (fun k => k.status == JStatus.queued) = some j :=
        List.find?_cons_of_pos t hq
      rw [h2] at h
      cases h
      refine ⟨by simpa using hq, ?_⟩
      intro k hk _
      rcases List.mem_cons.mp hk with rfl | hmem
      · exact le_refl _
      · exact hs.1 k hmem
    · have h2 : (j :: t).find? (fun k => k.status == JStatus.queued) =
          t.find? (fun k => k.status == JStatus.queued) :=
        List.find?_cons_of_neg t hq
      rw [h2] at h
      obtain ⟨hstat, hmin⟩ := ih hs.2 h
      refine ⟨hstat, ?_⟩
      intro k hk hkq
      rcases List.mem_cons.mp hk with rfl | hmem
      · exact absurd (by simp [hkq]) hq
      · exact hmin k hmem hkq

theorem nextQueuedJob_some (st : JMState) (limit : ℕ) (nj : JobRec)
    (h : nextQueuedJob st limit = some nj) :
    st.activeJobs < limit ∧ nj ∈ st.jobs ∧ nj.status = JStatus.queued := by
  unfold nextQueuedJob at h
  by_cases hge : st.activeJobs ≥ limit
  · rw [if_pos hge] at h
    cases h
  · rw [if_neg hge] at h
    have hperm := List.perm_insertionSort createdLe st.jobs
    refine ⟨lt_of_not_ge hge, hperm.mem_iff.mp (List.mem_of_find?_eq_some h), ?_⟩
    have := List.find?_some h
    simpa using this

theorem processQueueStep_find_preserved (st1 : JMState) (limit now : ℕ)
    (id : String) (j1 : JobRec)
    (hids : (st1.jobs.map (fun j => j.id)).Nodup)
    (hfind : findJob st1.jobs id = some j1)
    (hnq : j1.status ≠ JStatus.queued) :
    findJob (processQueueStep st1 limit now).jobs id = some j1 := by
  unfold processQueueStep
  cases hnext : nextQueuedJob st1 limit with
  | none => exact hfind
  | some nj =>
    obtain ⟨-, hnjmem, hnjq⟩ := nextQueuedJob_some st1 limit nj hnext
    have hg : ∀ j : JobRec,
        ((fun j : JobRec => { j with status := JStatus.preparing, updated_at := some now }) j).id = j.id :=
      fun j => rfl
    simp only
    rw [findJob_setJob _ _ _ _ hg]
    have hne : ¬ id = nj.id := by
      intro he
      obtain ⟨hmem1, hid1⟩ := findJob_eq_some_mem _ _ _ hfind
      have huniq := List.inj_on_of_nodup_map hids hmem1 hnjmem (by rw [hid1, he])
      exact hnq (huniq ▸ hnjq)
    rw [if_neg hne]
    exact hfind

theorem updateJobStatus_find (st : JMState) (limit : ℕ) (id : String)
    (status : JStatus) (extra : Extra) (now : ℕ) (job : JobRec)
    (hids : (st.jobs.map (fun j => j.id)).Nodup)
    (hfind : findJob st.jobs id = some job) :
    findJob (updateJobStatus st limit id status extra now).jobs id =
      some { applyExtra job extra with status := status, updated_at := some now } := by
  have hf : ∀ j : JobRec,
      ((fun j : JobRec => { applyExtra j extra with status := status, updated_at := some now }) j).id = j.id :=
    fun j => rfl
  have hfind1 : findJob (updateJobStatusJobs st id status extra now) id =
      some { applyExtra job extra with status := status, updated_at := some now } := by
    unfold updateJobStatusJobs
    rw [findJob_setJob _ _ _ _ hf, if_pos rfl, hfind]
    rfl
  have hids1 : ((updateJobStatusJobs st id status extra now).map (fun j => j.id)).Nodup := by
    unfold updateJobStatusJobs
    rw [setJob_ids _ _ _ hf]
    exact hids
  have hu : updateJobStatus st limit id status extra now =
      (if status == JStatus.done || status == JStatus.failed then
        processQueueStep
          { jobs := updateJobStatusJobs st id status extra now,
            activeJobs := decActive st job.status } limit now
      else if status == JStatus.cancelled then
        processQueueStep
          { jobs := updateJobStatusJobs st id status extra now,
            activeJobs := decActive st job.status } limit now
      else { jobs := updateJobStatusJobs st id status extra now,
             activeJobs := st.activeJobs }) := by
    unfold updateJobStatus
    rw [hfind]
  rw [hu]
  by_cases hterm : (status == JStatus.done || status == JStatus.failed) = true
  · rw [if_pos hterm]
    apply processQueueStep_find_preserved _ _ _ _ _ hids1 hfind1
    intro habs
    have : status = JStatus.queued := habs
    rw [this] at hterm
    simp at hterm
  · rw [if_neg hterm]
    by_cases hcan : (status == JStatus.cancelled) = true
    · rw [if_pos hcan]
      apply processQueueStep_find_preserved _ _ _ _ _ hids1 hfind1
      intro habs
      have : status = JStatus.queued := habs
      rw [this] at hcan
      simp at hcan
    · rw [if_neg hcan]
      exact hfind1

theorem recoverJob_id (j : JobRec) (now : ℕ) : (recoverJob j now).id = j.id := by
  unfold recoverJob
  split <;> rfl

theorem recoverJob_status_ne_processing (j : JobRec) (now : ℕ) :
    (recoverJob j now).status ≠ JStatus.processing := by
  unfold recoverJob
  by_cases h : (j.status == JStatus.processing || j.status == JStatus.preparing) = true
  · rw [if_pos h]
    intro habs
    cases habs
  · rw [if_neg h]
    intro habs
    apply h
    rw [habs]
    rfl

theorem processQueueStep_mem (st1 : JMState) (limit now : ℕ) (j2 : JobRec)
    (h : j2 ∈ (processQueueStep st1 limit now).jobs) :
    j2 ∈ st1.jobs ∨
      ∃ j1 ∈ st1.jobs, j2 = { j1 with status := JStatus.preparing, updated_at := some now } := by
  unfold processQueueStep at h
  cases hnext : nextQueuedJob st1 limit with
  | none =>
    rw [hnext] at h
    exact Or.inl h
  | some nj =>
    rw [hnext] at h
    simp only [setJob, List.mem_map] at h
    obtain ⟨j1, hj1, hj2⟩ := h
    by_cases hc : (j1.id == nj.id) = true
    · rw [if_pos hc] at hj2
      exact Or.inr ⟨j1, hj1, hj2.symm⟩
    · rw [if_neg hc] at hj2
      exact Or.inl (hj2 ▸ hj1)

/-- C2 counterexample: a store holding one queued job. The processQueue
call at the end of init synchronously moves it to preparing before init
completes, so immediately after init a job does have status preparing —
contradicting the claim that no job is in processing or preparing then. -/
theorem init_moves_queued_to_preparing :
    initJM [createJobRec ("q1") 0 none none] 1 5 =
      { jobs := [{ createJobRec ("q1") 0 none none with
                    status := JStatus.preparing, updated_at := some 5 }],
        activeJobs := 1 } := by
  rfl

/-- C2 (amended): init force-fails every persisted processing or preparing
job with the fixed reason Server restart during execution and never
resumes it, and immediately after init no job has status processing; a
previously queued job, however, may already have been dequeued to
preparing by the processQueue call that ends init. -/
theorem init_recovery (persisted : List JobRec) (limit now : ℕ)
    (hids : (persisted.map (fun j => j.id)).Nodup) :
    (∀ j ∈ persisted, (j.status = JStatus.processing ∨ j.status = JStatus.preparing) →
      findJob (initJM persisted limit now).jobs j.id =
        some { j with
                status := JStatus.failed,
                error := some ("Server restart during execution"),
                updated_at := some now }) ∧
    (∀ j2 ∈ (initJM persisted limit now).jobs, j2.status ≠ JStatus.processing) := by
  have hidsr : ((persisted.map (fun j => recoverJob j now)).map (fun j => j.id)).Nodup := by
    rw [List.map_map]
    have : (fun j => j.id) ∘ (fun j => recoverJob j now) = fun j : JobRec => j.id := by
      funext j
      exact recoverJob_id j now
    rw [this]
    exact hids
  constructor
  · intro j hj hps
    have hcond : (j.status == JStatus.processing || j.status == JStatus.preparing) = true := by
      rcases hps with h | h <;> rw [h] <;> rfl
    have hrec : recoverJob j now =
        { j with
            status := JStatus.failed,
            error := some ("Server restart during execution"),
            updated_at := some now } := by
      unfold recoverJob
      rw [if_pos hcond]
    have hmem : recoverJob j now ∈ persisted.map (fun j => recoverJob j now) :=
      List.mem_map_of_mem _ hj
    have hfindr : findJob (persisted.map (fun j => recoverJob j now)) j.id =
        some (recoverJob j now) := by
      have := findJob_of_nodup_mem _ _ hidsr hmem
      rw [recoverJob_id] at this
      exact this
    unfold initJM
    rw [← hrec]
    apply processQueueStep_find_preserved _ _ _ _ _ hidsr hfindr
    rw [hrec]
    intro habs
    cases habs
  · intro j2 hj2
    rcases processQueueStep_mem _ _ _ _ hj2 with hmem | ⟨j1, _, hj2eq⟩
    · simp only [List.mem_map] at hmem
      obtain ⟨j0, _, hj0⟩ := hmem
      rw [← hj0]
      exact recoverJob_status_ne_processing j0 now
    · rw [hj2eq]
      intro habs
      cases habs

/-- Witness for C2 (amended): one job persisted as processing is failed
with the fixed reason after init. -/
theorem init_recovery_witness :
    findJob
      (initJM [{ createJobRec ("p1") 0 none none with status := JStatus.processing }] 1 3).jobs
      ("p1") =
      some { createJobRec ("p1") 0 none none with
              status := JStatus.failed,
              error := some ("Server restart during execution"),
              updated_at := some 3 } := by
  have h := (init_recovery
      [{ createJobRec ("p1") 0 none none with status := JStatus.processing }] 1 3
      (by simp)).1
    { createJobRec ("p1") 0 none none with status := JStatus.processing }
    (by simp) (Or.inl rfl)
  exact h

/-- C3 counterexample: cancelJob on a job already in the terminal status
done moves it to cancelled — the claim that no operation ever changes the
status of a done job is false on the code. -/
theorem cancelJob_on_done_job :
    cancelJob
      { jobs := [{ createJobRec ("d1") 0 none none with status := JStatus.done }],
        activeJobs := 0 } 1 ("d1") 7 =
      Except.ok
        { jobs := [{ createJobRec ("d1") 0 none none with
                      status := JStatus.cancelled, updated_at := some 7 }],
          activeJobs := 0 } := by
  rfl

/-- C3 (amended): updateJobStatus applies the requested status
unconditionally — after updateJobStatus(id, s) the job with that id has
status s regardless of its previous status, including the terminal
statuses done, failed and cancelled — and cancelJob on any existing job is
exactly this unconditional transition to cancelled. The state machine
edges hold only for the transitions the normal execution path happens to
request. -/
theorem updateJobStatus_unguarded (st : JMState) (limit : ℕ) (id : String)
    (status : JStatus) (extra : Extra) (now : ℕ) (job : JobRec)
    (hids : (st.jobs.map (fun j => j.id)).Nodup)
    (hfind : findJob st.jobs id = some job) :
    (∃ j2, findJob (updateJobStatus st limit id status extra now).jobs id = some j2 ∧
      j2.status = status) ∧
    cancelJob st limit id now =
      Except.ok (updateJobStatus st limit id JStatus.cancelled noExtra now) := by
  constructor
  · exact ⟨_, updateJobStatus_find st limit id status extra now job hids hfind, rfl⟩
  · unfold cancelJob
    rw [hfind]

/-- Witness for C3 (amended): a done job is moved to processing by
updateJobStatus and to cancelled by cancelJob. -/
theorem updateJobStatus_unguarded_witness :
    (findJob
      (updateJobStatus
        { jobs := [{ createJobRec ("w3") 0 none none with status := JStatus.done }],
          activeJobs := 0 } 1 ("w3") JStatus.processing noExtra 9).jobs ("w3")).map
        (fun j => j.status) = some JStatus.processing ∧
    cancelJob
      { jobs := [{ createJobRec ("w3") 0 none none with status := JStatus.done }],
        activeJobs := 0 } 1 ("w3") 9 =
      Except.ok
        (updateJobStatus
          { jobs := [{ createJobRec ("w3") 0 none none with status := JStatus.done }],
            activeJobs := 0 } 1 ("w3") JStatus.cancelled noExtra 9) := by
  have h := updateJobStatus_unguarded
    { jobs := [{ createJobRec ("w3") 0 none none with status := JStatus.done }],
      activeJobs := 0 } 1 ("w3") JStatus.processing noExtra 9
    { createJobRec ("w3") 0 none none with status := JStatus.done }
    (by simp) (by rfl)
  have h2 := updateJobStatus_unguarded
    { jobs := [{ createJobRec ("w3") 0 none none with status := JStatus.done }],
      activeJobs := 0 } 1 ("w3") JStatus.cancelled noExtra 9
    { createJobRec ("w3") 0 none none with status := JStatus.done }
    (by simp) (by rfl)
  obtain ⟨⟨j2, hfind2, hstat2⟩, -⟩ := h
  refine ⟨?_, h2.2⟩
  rw [hfind2]
  simp [hstat2]

/-- C4: in the effect trace of any updateJobStatus call, the persistJob
write of the updated record precedes every webhook delivery initiation; in
particular a terminal status is persisted before the first webhook POST
attempt is made. -/
theorem webhook_after_persist (st : JMState) (id : String) (status : JStatus)
    (u : String) (pre post : List JMEvent)
    (h : updateJobStatusEvents st id status =
      pre ++ JMEvent.webhookPost u id status :: post) :
    JMEvent.persist id status ∈ pre := by
  unfold updateJobStatusEvents at h
  cases hfind : findJob st.jobs id with
  | none =>
    rw [hfind] at h
    simp at h
  | some job =>
    rw [hfind] at h
    rcases pre with _ | ⟨a, pre⟩
    · simp at h
    · rcases pre with _ | ⟨b, pre⟩
      · simp at h
      · simp only [List.cons_append, List.nil_append, List.cons.injEq] at h
        obtain ⟨-, hb, -⟩ := h
        rw [← hb]
        simp

/-- Witness for C4: a processing job with a webhook URL transitioning to
done has the persist event strictly before the webhook POST event. -/
theorem webhook_after_persist_witness :
    JMEvent.persist ("j1") JStatus.done ∈
      [JMEvent.emitProgress ("j1") JStatus.done, JMEvent.persist ("j1") JStatus.done] :=
  webhook_after_persist
    { jobs := [{ createJobRec ("j1") 0 (some ("http://cb.example/hook")) none with
                  status := JStatus.processing }],
      activeJobs := 1 } ("j1") JStatus.done ("http://cb.example/hook")
    [JMEvent.emitProgress ("j1") JStatus.done, JMEvent.persist ("j1") JStatus.done]
    [JMEvent.queueScan]
    (by rfl)

/-- C5: processQueue never dequeues while the active count is at or above
the concurrency limit, and when it does dequeue, the job moved to
preparing is a queued job whose creation timestamp is minimal among all
queued jobs. -/
theorem processQueue_fifo (st : JMState) (limit now : ℕ) :
    (st.activeJobs ≥ limit →
      nextQueuedJob st limit = none ∧ processQueueStep st limit now = st) ∧
    (∀ nj, nextQueuedJob st limit = some nj →
      st.activeJobs < limit ∧ nj ∈ st.jobs ∧ nj.status = JStatus.queued ∧
      ∀ k ∈ st.jobs, k.status = JStatus.queued → nj.created_at ≤ k.created_at) := by
  constructor
  · intro hge
    have hn : nextQueuedJob st limit = none := by
      unfold nextQueuedJob
      rw [if_pos hge]
    refine ⟨hn, ?_⟩
    unfold processQueueStep
    rw [hn]
  · intro nj h
    obtain ⟨hlt, hmem, hstat⟩ := nextQueuedJob_some st limit nj h
    refine ⟨hlt, hmem, hstat, ?_⟩
    unfold nextQueuedJob at h
    rw [if_neg (not_le.mpr hlt)] at h
    have hsorted : (sortByCreated st.jobs).Sorted createdLe :=
      List.sorted_insertionSort createdLe st.jobs
    obtain ⟨-, hmin⟩ := sorted_find_queued_minimal _ hsorted nj h
    intro k hk hkq
    have hperm := List.perm_insertionSort createdLe st.jobs
    exact hmin k (hperm.mem_iff.mpr hk) hkq

/-- Witness for C5: with job A created at 1 and job B created at 2, both
queued and one free slot, A is the job dequeued. -/
theorem processQueue_fifo_witness :
    (0 : ℕ) < 1 ∧ (createJobRec ("A") 1 none none).status = JStatus.queued ∧
      (createJobRec ("A") 1 none none).created_at ≤
        (createJobRec ("B") 2 none none).created_at := by
  have h := (processQueue_fifo
      { jobs := [createJobRec ("B") 2 none none, createJobRec ("A") 1 none none],
        activeJobs := 0 } 1 0).2
    (createJobRec ("A") 1 none none) (by rfl)
  exact ⟨h.1, h.2.2.1, h.2.2.2 (createJobRec ("B") 2 none none) (by simp) rfl⟩

/-- C10 counterexample: the GET jobs result endpoint returns the job's
working-directory output path (temp/jobId/output.mp4) verbatim in its
response — an internal filesystem path in a status response, contradicting
the claim that no response ever contains one. -/
theorem result_response_exposes_workdir_path :
    jobResultResponse
      { jobs := [{ createJobRec ("j1") 0 none none with
                    status := JStatus.done,
                    result := some
                      { outputFile := some (compositionOutputFile ("temp") ("j1")),
                        url := none, thumbnailFile := none, thumbnailUrl := none,
                        uploadError := none } }],
        activeJobs := 0 } ("j1") =
      Except.ok
        { status := "done", outputFile := some ("temp/j1/output.mp4"), url := none,
          thumbnailFile := none, thumbnailUrl := none, uploadError := none } := by
  rfl

/-- C10 (amended): status responses and webhook payloads have the stack
property removed while passing the error string and the result — including
its internal filesystem paths — through unchanged, and both failure paths
(engine failure via updateJobStatus and crash recovery) attach a
human-readable error string to the failed job. -/
theorem responses_sanitized_and_errors_present :
    (∀ st id j2, getJobM st id = some j2 →
      j2.stack = none ∧ ∃ j, findJob st.jobs id = some j ∧ j2 = sanitizeJob j ∧
        j2.error = j.error ∧ j2.result = j.result) ∧
    (∀ st limit id now msg job,
      ((st.jobs.map (fun j => j.id)).Nodup) → findJob st.jobs id = some job →
      ∃ j2, findJob (updateJobStatus st limit id JStatus.failed
          { error := some msg, result := none } now).jobs id = some j2 ∧
        j2.status = JStatus.failed ∧ j2.error = some msg) ∧
    (∀ j now, (j.status = JStatus.processing ∨ j.status = JStatus.preparing) →
      (recoverJob j now).status = JStatus.failed ∧
        (recoverJob j now).error = some ("Server restart during execution")) := by
  refine ⟨?_, ?_, ?_⟩
  · intro st id j2 h
    unfold getJobM at h
    cases hfind : findJob st.jobs id with
    | none =>
      rw [hfind] at h
      cases h
    | some j =>
      rw [hfind] at h
      simp only [Option.map_some'] at h
      cases h
      exact ⟨rfl, j, rfl, rfl, rfl, rfl⟩
  · intro st limit id now msg job hids hfind
    refine ⟨_, updateJobStatus_find st limit id JStatus.failed
      { error := some msg, result := none } now job hids hfind, rfl, rfl⟩
  · intro j now hps
    have hcond : (j.status == JStatus.processing || j.status == JStatus.preparing) = true := by
      rcases hps with h | h <;> rw [h] <;> rfl
    unfold recoverJob
    rw [if_pos hcond]
    exact ⟨rfl, rfl⟩

/-- Witness for C10 (amended): a sanitized lookup of a failed job has no
stack and keeps the error string, and a concrete failed transition stores
the message. -/
theorem responses_sanitized_witness :
    ((findJob
        (updateJobStatus
          { jobs := [{ createJobRec ("f1") 0 none none with status := JStatus.processing }],
            activeJobs := 1 } 1 ("f1") JStatus.failed
          { error := some ("boom"), result := none } 4).jobs ("f1")).map
      (fun j => (j.status, j.error))) = some (JStatus.failed, some ("boom")) := by
  have h := (responses_sanitized_and_errors_present).2.1
    { jobs := [{ createJobRec ("f1") 0 none none with status := JStatus.processing }],
      activeJobs := 1 } 1 ("f1") 4 ("boom")
    { createJobRec ("f1") 0 none none with status := JStatus.processing }
    (by simp) (by rfl)
  obtain ⟨j2, hfind2, hstat2, herr2⟩ := h
  rw [hfind2]
  simp [hstat2, herr2]

/-- C7: the run method computes finalDuration as the maximum of the visual
sum and a voDuration property of the job — but nothing in the codebase
ever assigns that property (createJob does not create it and no engine
stage writes it), so its read always yields 0: with a 5-second clip and a
20-second narration the code still derives finalDuration 5 and emits no
tpad freeze-extension, while the claim (and the dead padding machinery
itself) expects max(5, 20) = 20 with a 15-second extension of the last
clip. -/
theorem compositionDuration_ignores_narration :
    (createJobRec ("c7") 0 none (some ("composition"))).voDuration = none ∧
    compFinalDuration
      (createJobRec ("c7") 0 none (some ("composition"))).voDuration
      [{ emptyCompClip with duration := some 5 }] = 5 ∧
    lastClipPad
      (createJobRec ("c7") 0 none (some ("composition"))).voDuration
      [{ emptyCompClip with duration := some 5 }] = none ∧
    compFinalDuration (some 20) [{ emptyCompClip with duration := some 5 }] = 20 ∧
    lastClipPad (some 20) [{ emptyCompClip with duration := some 5 }] = some 15 := by
  refine ⟨rfl, ?_, ?_, ?_, ?_⟩ <;>
    norm_num [compFinalDuration, totalVisualDuration, lastClipPad, jsOrQ, emptyCompClip,
      createJobRec]

/-- C8 counterexample: an image clip of duration 0.25 s at 30 fps gets a
zoompan frame count of 7.5, not round(0.25 * 30) = 8 — the code performs
no rounding. -/
theorem kenBurns_frames_not_rounded :
    (clipZoomPan { emptyCompClip with duration := some (1/4) } 30 360 640).frames =
      (15 : ℚ)/2 ∧
    ((15 : ℚ)/2) ≠ ((round ((1/4 : ℚ) * 30) : ℤ) : ℚ) := by
  constructor
  · norm_num [clipZoomPan, kenBurnsZoomPan, jsOrQ, emptyCompClip]
  · norm_num [round_eq]

/-- C8 (amended): the zoompan frame count parameter equals duration times
fps exactly, with no rounding; it coincides with round(t * f) precisely
when the product is an integer. -/
theorem kenBurns_frames_exact (effect : Option String) (dur fps : ℚ) (w h : ℕ) :
    (kenBurnsZoomPan effect dur fps w h).frames = dur * fps ∧
    ((dur * fps).den = 1 →
      (kenBurnsZoomPan effect dur fps w h).frames = ((round (dur * fps) : ℤ) : ℚ)) := by
  refine ⟨rfl, ?_⟩
  intro hden
  have hnum : (((dur * fps).num : ℤ) : ℚ) = dur * fps :=
    Rat.coe_int_num_of_den_eq_one hden
  have hround : round (dur * fps) = (dur * fps).num := by
    rw [← hnum]
    exact round_intCast _
  show dur * fps = ((round (dur * fps) : ℤ) : ℚ)
  rw [hround, hnum]

/-- Witness for C8 (amended): a 5-second image clip at 30 fps yields 150
frames, an integer product where the rounded value agrees. -/
theorem kenBurns_frames_exact_witness :
    (kenBurnsZoomPan none 5 30 1080 1920).frames = (5 : ℚ) * 30 ∧
    (kenBurnsZoomPan none 5 30 1080 1920).frames = ((round ((5 : ℚ) * 30) : ℤ) : ℚ) :=
  ⟨(kenBurns_frames_exact none 5 30 1080 1920).1,
   (kenBurns_frames_exact none 5 30 1080 1920).2 (by norm_num)⟩

theorem except_bind_ok {α : Type} (x : Except String α) (f : α → Except String Unit)
    (h : (x >>= f) = Except.ok ()) : ∃ v, x = Except.ok v ∧ f v = Except.ok () := by
  cases x with
  | error e =>
    exact absurd h (by intro habs; cases habs)
  | ok v => exact ⟨v, rfl, h⟩

theorem checkClipsLoop_ok (u : String → Bool) (cl : List CompClip)
    (h : checkClipsLoop u cl = Except.ok ()) :
    ∀ c ∈ cl, checkClip u c = Except.ok () := by
  induction cl with
  | nil =>
    intro c hc
    cases hc
  | cons c rest ih =>
    intro c2 hc2
    rw [checkClipsLoop] at h
    rcases hcc : checkClip u c with e | v
    · rw [hcc] at h
      cases h
    · rw [hcc] at h
      rcases List.mem_cons.mp hc2 with rfl | hmem
      · cases v
        exact hcc
      · exact ih h c2 hmem

theorem checkClip_ok_speed (u : String → Bool) (c : CompClip) (sp : ℚ)
    (h : checkClip u c = Except.ok ()) (hsp : c.speed = some sp) :
    1/4 ≤ sp ∧ sp ≤ 4 := by
  unfold checkClip at h
  split at h
  · cases h
  · split at h
    · cases h
    · rw [hsp] at h
      have h2 : (if sp < 1/4 ∨ 4 < sp then
          (Except.error ("clip.speed must be between 0.25 and 4.0") : Except String Unit)
        else Except.ok ()) = Except.ok () := h
      by_cases hbad : sp < 1/4 ∨ 4 < sp
      · rw [if_pos hbad] at h2
        cases h2
      · push_neg at hbad
        exact hbad

theorem checkClip_ok_url (u : String → Bool) (c : CompClip) (url2 : String)
    (h : checkClip u c = Except.ok ()) (hurl : c.url = some url2)
    (hstart : url2.startsWith ("http") = true) : u url2 = true := by
  unfold checkClip at h
  by_cases h1 : (!(jsTruthyS c.url) && !(jsTruthyS c.query)) = true
  · rw [if_pos h1] at h
    cases h
  · rw [if_neg h1] at h
    by_cases h2 : (jsTruthyS c.url && (c.url.getD ("")).startsWith ("http") &&
        !(u (c.url.getD ("")))) = true
    · rw [if_pos h2] at h
      cases h
    · have hne : ¬ url2 = "" := by
        intro he
        rw [he] at hstart
        exact absurd hstart (by decide)
      cases hu : u url2 with
      | true => rfl
      | false =>
        exfalso
        apply h2
        rw [hurl]
        simp [jsTruthyS, hne, hstart, hu]

theorem validateJobPayload_ok_webhook (u : String → Bool) (p : PayloadReq)
    (h : validateJobPayload u p = Except.ok ()) :
    (if jsTruthyS p.webhook_url && !(u (p.webhook_url.getD (""))) then
      (Except.error ("Invalid webhook_url.") : Except String Unit)
    else Except.ok ()) = Except.ok () := by
  unfold validateJobPayload at h
  cases hmode : modeOk p with
  | false =>
    rw [hmode] at h
    simp at h
  | true =>
    rw [hmode] at h
    simp only [Bool.not_true, Bool.false_eq_true, if_false] at h
    obtain ⟨v1, -, h⟩ := except_bind_ok _ _ h
    obtain ⟨v2, -, h⟩ := except_bind_ok _ _ h
    exact h

theorem compositionChecks_ok (u : String → Bool) (comp : CompReq)
    (h : compositionChecks u (some comp) = Except.ok ()) :
    checkClipsField u comp = Except.ok () ∧ checkOverlaysField comp = Except.ok () ∧
    checkFormatField comp = Except.ok () ∧ checkQualityField comp = Except.ok () ∧
    checkSubtitlesField comp = Except.ok () ∧ checkVOField comp = Except.ok () := by
  unfold compositionChecks at h
  obtain ⟨v1, h1, h⟩ := except_bind_ok _ _ h
  obtain ⟨v2, h2, h⟩ := except_bind_ok _ _ h
  obtain ⟨v3, h3, h⟩ := except_bind_ok _ _ h
  obtain ⟨v4, h4, h⟩ := except_bind_ok _ _ h
  obtain ⟨v5, h5, h⟩ := except_bind_ok _ _ h
  cases v1
  cases v2
  cases v3
  cases v4
  cases v5
  exact ⟨h1, h2, h3, h4, h5, h⟩

theorem validateJobPayload_ok_composition (u : String → Bool) (p : PayloadReq)
    (hm : p.mode = some ("composition"))
    (h : validateJobPayload u p = Except.ok ()) :
    compositionChecks u p.composition = Except.ok () := by
  unfold validateJobPayload at h
  have hmode : modeOk p = true := by
    unfold modeOk
    rw [hm]
    rfl
  rw [hmode] at h
  simp only [Bool.not_true, Bool.false_eq_true, if_false] at h
  obtain ⟨v1, h1, -⟩ := except_bind_ok _ _ h
  rw [if_pos hm] at h1
  exact h1

/-- C6 counterexample: a composition submission whose only clip carries a
transition with the unknown type explode passes validation and creates a
queued job (for any behaviour of the URL parser, which this payload never
consults) — the claim that unknown transition types are rejected before
queueing is false on the code. -/
theorem unknown_transition_type_accepted :
    postJobs (fun _ => true)
      { mode := some ("composition"),
        composition := some { emptyCompReq with
          clips := some [{ emptyCompClip with
            query := some ("nature"),
            transition := some { type := some ("explode"), duration := some 1 } }] },
        assembly := none, webhook_url := none } =
      PostJobsResult.created JStatus.queued ∧
    postJobs (fun _ => false)
      { mode := some ("composition"),
        composition := some { emptyCompReq with
          clips := some [{ emptyCompClip with
            query := some ("nature"),
            transition := some { type := some ("explode"), duration := some 1 } }] },
        assembly := none, webhook_url := none } =
      PostJobsResult.created JStatus.queued := by
  exact ⟨rfl, rfl⟩

/-- C6 (amended): a composition submission containing a malformed URL — a
clip source URL or the webhook callback URL that the URL parser rejects
(clip sources not prefixed with http are local-path or stock references
rather than URLs, and an empty string is falsy in JS, i.e. an absent
value) — a clip count outside 1-20, a clip speed outside 0.25-4.0,
narration text over the 5000-character ceiling, or an unknown enumerated
value for output format or quality is rejected with a validation error
and no job is ever created or queued; an unknown transition type,
however, is accepted — the handler only checks that the transition is an
object, and the filter compiler later falls back to the fade transition
for it. -/
theorem submission_validation :
    (∀ (u : String → Bool) (p : PayloadReq) (comp : CompReq),
      p.mode = some ("composition") → p.composition = some comp →
      ((∃ cl, comp.clips = some cl ∧ (cl.length = 0 ∨ 20 < cl.length)) ∨
       (∃ cl c sp, comp.clips = some cl ∧ c ∈ cl ∧ c.speed = some sp ∧
         (sp < 1/4 ∨ 4 < sp)) ∨
       (∃ vo t, comp.voice_over = some vo ∧ vo.text = some t ∧ 5000 < t.length) ∨
       (∃ f, comp.output_format = some f ∧ ¬ f = "" ∧ ¬ f ∈ VALID_FORMATS) ∨
       (∃ q, comp.quality = some q ∧ ¬ q = "" ∧ ¬ q = "draft" ∧ ¬ q = "full") ∨
       (∃ cl c url2, comp.clips = some cl ∧ c ∈ cl ∧ c.url = some url2 ∧
         url2.startsWith ("http") = true ∧ u url2 = false) ∨
       (∃ wu, p.webhook_url = some wu ∧ ¬ wu = "" ∧ u wu = false)) →
      ∃ e, postJobs u p = PostJobsResult.rejected e) ∧
    resolveXfadeType ("explode") = "fade" := by
  constructor
  · intro u p comp hm hc hbad
    rcases hval : validateJobPayload u p with e | v
    · refine ⟨e, ?_⟩
      unfold postJobs
      rw [hval]
    · exfalso
      cases v
      have hcomp := validateJobPayload_ok_composition u p hm hval
      rw [hc] at hcomp
      obtain ⟨hclips, -, hfmt, hqual, -, hvo⟩ := compositionChecks_ok u comp hcomp
      rcases hbad with ⟨cl, hcl, hlen⟩ | ⟨cl, c, sp, hcl, hcmem, hsp, hspbad⟩ |
        ⟨vo, t, hvo2, ht, hlen5⟩ | ⟨f, hf, hfne, hfnotin⟩ |
        ⟨q, hq, hqne, hqd, hqf⟩ | ⟨cl, c, url2, hcl, hcmem, hurl, hstart, huf⟩ |
        ⟨wu, hwu, hwne, huf⟩
      · unfold checkClipsField at hclips
        rw [hcl] at hclips
        have hclips2 : (if cl.length = 0 ∨ 20 < cl.length then
            (Except.error ("clips must have 1-20 items.") : Except String Unit)
          else checkClipsLoop u cl) = Except.ok () := hclips
        rw [if_pos hlen] at hclips2
        cases hclips2
      · unfold checkClipsField at hclips
        rw [hcl] at hclips
        have hclips2 : (if cl.length = 0 ∨ 20 < cl.length then
            (Except.error ("clips must have 1-20 items.") : Except String Unit)
          else checkClipsLoop u cl) = Except.ok () := hclips
        by_cases hlen2 : cl.length = 0 ∨ 20 < cl.length
        · rw [if_pos hlen2] at hclips2
          cases hclips2
        · rw [if_neg hlen2] at hclips2
          have hok := checkClipsLoop_ok u cl hclips2 c hcmem
          obtain ⟨hge, hle⟩ := checkClip_ok_speed u c sp hok hsp
          rcases hspbad with hlt | hgt
          · exact absurd hlt (not_lt.mpr hge)
          · exact absurd hgt (not_lt.mpr hle)
      · unfold checkVOField at hvo
        rw [hvo2] at hvo
        have hvo3 : (if jsTruthyS vo.text ∧ 5000 < (vo.text.getD ("")).length then
            (Except.error ("voice_over.text exceeds 5000 character limit.") : Except String Unit)
          else Except.ok ()) = Except.ok () := hvo
        have htne : ¬ t = "" := by
          intro he
          rw [he] at hlen5
          exact absurd hlen5 (by norm_num [String.length])
        have hcond : jsTruthyS (some t) ∧ 5000 < ((some t).getD ("")).length := by
          refine ⟨?_, by simpa using hlen5⟩
          simp [jsTruthyS, htne]
        rw [ht] at hvo3
        rw [if_pos hcond] at hvo3
        cases hvo3
      · unfold checkFormatField at hfmt
        rw [hf] at hfmt
        have hcond : (jsTruthyS (some f) &&
            !(VALID_FORMATS.contains ((some f).getD ("")))) = true := by
          simp [jsTruthyS, hfne]
          intro habs
          exact hfnotin habs
        rw [if_pos hcond] at hfmt
        cases hfmt
      · unfold checkQualityField at hqual
        rw [hq] at hqual
        have hcond : (jsTruthyS (some q) &&
            !((((some q).getD ("")) == "draft") || (((some q).getD ("")) == "full"))) = true := by
          simp [jsTruthyS, hqne, hqd, hqf]
        rw [if_pos hcond] at hqual
        cases hqual
      · unfold checkClipsField at hclips
        rw [hcl] at hclips
        have hclips2 : (if cl.length = 0 ∨ 20 < cl.length then
            (Except.error ("clips must have 1-20 items.") : Except String Unit)
          else checkClipsLoop u cl) = Except.ok () := hclips
        by_cases hlen2 : cl.length = 0 ∨ 20 < cl.length
        · rw [if_pos hlen2] at hclips2
          cases hclips2
        · rw [if_neg hlen2] at hclips2
          have hok := checkClipsLoop_ok u cl hclips2 c hcmem
          have hvalid := checkClip_ok_url u c url2 hok hurl hstart
          rw [huf] at hvalid
          cases hvalid
      · have hwh := validateJobPayload_ok_webhook u p hval
        rw [hwu] at hwh
        have hcond : (jsTruthyS (some wu) && !(u ((some wu).getD ("")))) = true := by
          simp [jsTruthyS, hwne, huf]
        rw [if_pos hcond] at hwh
        cases hwh
  · rfl

/-- Witness for C6 (amended): the spec example — a submission with 25
clips — is rejected at submission and never queued. -/
theorem submission_validation_witness :
    (match postJobs (fun _ => true)
        { mode := some ("composition"),
          composition := some { emptyCompReq with
            clips := some (List.replicate 25 { emptyCompClip with query := some ("q") }) },
          assembly := none, webhook_url := none } with
      | PostJobsResult.rejected _ => true
      | PostJobsResult.created _ => false) = true := by
  obtain ⟨e, he⟩ := (submission_validation).1 (fun _ => true)
    { mode := some ("composition"),
      composition := some { emptyCompReq with
        clips := some (List.replicate 25 { emptyCompClip with query := some ("q") }) },
      assembly := none, webhook_url := none }
    { emptyCompReq with
      clips := some (List.replicate 25 { emptyCompClip with query := some ("q") }) }
    rfl rfl
    (Or.inl ⟨List.replicate 25 { emptyCompClip with query := some ("q") }, rfl,
      Or.inr (by simp)⟩)
  rw [he]

theorem ttsGo_nil (env : TTSEnv) (tried : List String) (le : Option String)
    (invs : List TTSBackend) :
    ttsGo env [] tried le invs = (Except.error (ttsMsg le), invs) := rfl

theorem ttsGo_cons_tried (env : TTSEnv) (p : String) (rest tried : List String)
    (le : Option String) (invs : List TTSBackend) (h : p ∈ tried) :
    ttsGo env (p :: rest) tried le invs = ttsGo env rest tried le invs := by
  simp [ttsGo, h]

theorem ttsGo_cons_disabled (env : TTSEnv) (p : String) (rest tried : List String)
    (le : Option String) (invs : List TTSBackend) (h : ¬ p ∈ tried)
    (hd : ttsEnabled env p = false) :
    ttsGo env (p :: rest) tried le invs = ttsGo env rest (p :: tried) le invs := by
  simp [ttsGo, h, hd]

theorem ttsGo_cons_ok (env : TTSEnv) (p : String) (rest tried : List String)
    (le : Option String) (invs : List TTSBackend) (v : String) (h : ¬ p ∈ tried)
    (he : ttsEnabled env p = true) (ho : outcomeOf env (backendOf p) = Except.ok v) :
    ttsGo env (p :: rest) tried le invs = (Except.ok v, invs ++ [backendOf p]) := by
  simp [ttsGo, h, he, ho]

theorem ttsGo_cons_err (env : TTSEnv) (p : String) (rest tried : List String)
    (le : Option String) (invs : List TTSBackend) (e : String) (h : ¬ p ∈ tried)
    (he : ttsEnabled env p = true) (ho : outcomeOf env (backendOf p) = Except.error e) :
    ttsGo env (p :: rest) tried le invs =
      ttsGo env rest (p :: tried) (some e) (invs ++ [backendOf p]) := by
  simp [ttsGo, h, he, ho]

theorem ttsGo_mono_aux (env : TTSEnv) :
    ∀ (l tried : List String) (le : Option String) (invs : List TTSBackend),
      invs.length ≤ (ttsGo env l tried le invs).2.length := by
  intro l
  induction l with
  | nil =>
    intro tried le invs
    rw [ttsGo_nil]
  | cons p rest ih =>
    intro tried le invs
    by_cases htr : p ∈ tried
    · rw [ttsGo_cons_tried env p rest tried le invs htr]
      exact ih tried le invs
    · cases hen : ttsEnabled env p with
      | false =>
        rw [ttsGo_cons_disabled env p rest tried le invs htr hen]
        exact ih (p :: tried) le invs
      | true =>
        rcases hout : outcomeOf env (backendOf p) with e | v
        · rw [ttsGo_cons_err env p rest tried le invs e htr hen hout]
          calc invs.length ≤ (invs ++ [backendOf p]).length := by simp
            _ ≤ _ := ih (p :: tried) (some e) (invs ++ [backendOf p])
        · rw [ttsGo_cons_ok env p rest tried le invs v htr hen hout]
          simp

theorem ttsGo_invoked (env : TTSEnv) :
    ∀ (l tried : List String) (le : Option String) (invs : List TTSBackend),
      (∃ p ∈ l, p ∉ tried ∧ ttsEnabled env p = true) →
      invs.length < (ttsGo env l tried le invs).2.length := by
  intro l
  induction l with
  | nil =>
    intro tried le invs h
    obtain ⟨p, hp, -⟩ := h
    cases hp
  | cons p rest ih =>
    intro tried le invs h
    by_cases htr : p ∈ tried
    · rw [ttsGo_cons_tried env p rest tried le invs htr]
      obtain ⟨p2, hp2, hnt2, hen2⟩ := h
      rcases List.mem_cons.mp hp2 with rfl | hmem2
      · exact absurd htr hnt2
      · exact ih tried le invs ⟨p2, hmem2, hnt2, hen2⟩
    · cases hen : ttsEnabled env p with
      | false =>
        rw [ttsGo_cons_disabled env p rest tried le invs htr hen]
        obtain ⟨p2, hp2, hnt2, hen2⟩ := h
        rcases List.mem_cons.mp hp2 with rfl | hmem2
        · rw [hen] at hen2
          cases hen2
        · refine ih (p :: tried) le invs ⟨p2, hmem2, ?_, hen2⟩
          intro habs
          rcases List.mem_cons.mp habs with rfl | hmem3
          · rw [hen] at hen2
            cases hen2
          · exact hnt2 hmem3
      | true =>
        rcases hout : outcomeOf env (backendOf p) with e | v
        · rw [ttsGo_cons_err env p rest tried le invs e htr hen hout]
          calc invs.length < (invs ++ [backendOf p]).length := by simp
            _ ≤ (ttsGo env rest (p :: tried) (some e) (invs ++ [backendOf p])).2.length := by
              by_cases h2 : ∃ p2 ∈ rest, p2 ∉ (p :: tried) ∧ ttsEnabled env p2 = true
              · exact le_of_lt (ih (p :: tried) (some e) (invs ++ [backendOf p]) h2)
              · exact ttsGo_mono_aux env rest (p :: tried) (some e) (invs ++ [backendOf p])
        · rw [ttsGo_cons_ok env p rest tried le invs v htr hen hout]
          simp

theorem ttsGo_error_shape (env : TTSEnv) :
    ∀ (l tried : List String) (le : Option String) (invs : List TTSBackend)
      (m : String) (invs2 : List TTSBackend),
      ttsGo env l tried le invs = (Except.error m, invs2) →
      ∃ d, invs2 = invs ++ d ∧ (∀ b ∈ d, ∃ e, outcomeOf env b = Except.error e) ∧
        ((d = [] ∧ m = ttsMsg le) ∨
         (∃ b e, d.getLast? = some b ∧ outcomeOf env b = Except.error e ∧
           m = ttsMsg (some e))) := by
  intro l
  induction l with
  | nil =>
    intro tried le invs m invs2 h
    rw [ttsGo_nil, Prod.mk.injEq] at h
    obtain ⟨hm, hinvs⟩ := h
    simp only [Except.error.injEq] at hm
    exact ⟨[], by simp [← hinvs], by simp, Or.inl ⟨rfl, hm.symm⟩⟩
  | cons p rest ih =>
    intro tried le invs m invs2 h
    by_cases htr : p ∈ tried
    · rw [ttsGo_cons_tried env p rest tried le invs htr] at h
      exact ih tried le invs m invs2 h
    · cases hen : ttsEnabled env p with
      | false =>
        rw [ttsGo_cons_disabled env p rest tried le invs htr hen] at h
        exact ih (p :: tried) le invs m invs2 h
      | true =>
        rcases hout : outcomeOf env (backendOf p) with e | v
        · rw [ttsGo_cons_err env p rest tried le invs e htr hen hout] at h
          obtain ⟨d2, hinvs2, herrs, hlast⟩ := ih (p :: tried) (some e) (invs ++ [backendOf p]) m invs2 h
          refine ⟨backendOf p :: d2, by simpa using hinvs2, ?_, ?_⟩
          · intro b hb
            rcases List.mem_cons.mp hb with rfl | hmem
            · exact ⟨e, hout⟩
            · exact herrs b hmem
          · rcases hlast with ⟨hd2nil, hm⟩ | ⟨b, e2, hlast2, hout2, hm2⟩
            · refine Or.inr ⟨backendOf p, e, ?_, hout, hm⟩
              rw [hd2nil]
              rfl
            · refine Or.inr ⟨b, e2, ?_, hout2, hm2⟩
              cases d2 with
              | nil => cases hlast2
              | cons x xs => rw [List.getLast?_cons_cons]; exact hlast2
        · rw [ttsGo_cons_ok env p rest tried le invs v htr hen hout] at h
          exact absurd (congrArg Prod.fst h) (by simp)

theorem ttsGo_success_shape (env : TTSEnv) :
    ∀ (l tried : List String) (le : Option String) (invs : List TTSBackend)
      (v : String) (invs2 : List TTSBackend),
      ttsGo env l tried le invs = (Except.ok v, invs2) →
      ∃ d b, invs2 = invs ++ d ++ [b] ∧ outcomeOf env b = Except.ok v ∧
        ∀ b2 ∈ d, ∃ e, outcomeOf env b2 = Except.error e := by
  intro l
  induction l with
  | nil =>
    intro tried le invs v invs2 h
    rw [ttsGo_nil] at h
    exact absurd (congrArg Prod.fst h) (by simp)
  | cons p rest ih =>
    intro tried le invs v invs2 h
    by_cases htr : p ∈ tried
    · rw [ttsGo_cons_tried env p rest tried le invs htr] at h
      exact ih tried le invs v invs2 h
    · cases hen : ttsEnabled env p with
      | false =>
        rw [ttsGo_cons_disabled env p rest tried le invs htr hen] at h
        exact ih (p :: tried) le invs v invs2 h
      | true =>
        rcases hout : outcomeOf env (backendOf p) with e | v2
        · rw [ttsGo_cons_err env p rest tried le invs e htr hen hout] at h
          obtain ⟨d2, b, hinvs2, hok, herrs⟩ := ih (p :: tried) (some e) (invs ++ [backendOf p]) v invs2 h
          refine ⟨backendOf p :: d2, b, by simpa using hinvs2, hok, ?_⟩
          intro b2 hb2
          rcases List.mem_cons.mp hb2 with rfl | hmem
          · exact ⟨e, hout⟩
          · exact herrs b2 hmem
        · rw [ttsGo_cons_ok env p rest tried le invs v2 htr hen hout] at h
          have hv : v2 = v := by
            have := congrArg Prod.fst h
            simpa using this
          have hinvs : invs ++ [backendOf p] = invs2 := congrArg Prod.snd h
          exact ⟨[], backendOf p, by simp [← hinvs], by rw [hout, hv], by simp⟩

theorem ttsGo_nodup (env : TTSEnv) :
    ∀ (l tried : List String) (le : Option String) (invs : List TTSBackend),
      (∀ p ∈ l, ∀ q ∈ l, ¬ p = q → ¬ backendOf p = backendOf q) →
      (∀ p ∈ l, p ∉ tried → ∀ b ∈ invs, ¬ b = backendOf p) →
      invs.Nodup →
      (ttsGo env l tried le invs).2.Nodup := by
  intro l
  induction l with
  | nil =>
    intro tried le invs _ _ hnd
    rw [ttsGo_nil]
    exact hnd
  | cons p rest ih =>
    intro tried le invs hpw hpt hnd
    have hpwrest : ∀ p2 ∈ rest, ∀ q ∈ rest, ¬ p2 = q → ¬ backendOf p2 = backendOf q :=
      fun p2 hp2 q hq => hpw p2 (List.mem_cons_of_mem p hp2) q (List.mem_cons_of_mem p hq)
    by_cases htr : p ∈ tried
    · rw [ttsGo_cons_tried env p rest tried le invs htr]
      exact ih tried le invs hpwrest
        (fun p2 hp2 => hpt p2 (List.mem_cons_of_mem p hp2)) hnd
    · cases hen : ttsEnabled env p with
      | false =>
        rw [ttsGo_cons_disabled env p rest tried le invs htr hen]
        refine ih (p :: tried) le invs hpwrest ?_ hnd
        intro p2 hp2 hnt2 b hb
        have : p2 ∉ tried := fun habs => hnt2 (List.mem_cons_of_mem p habs)
        exact hpt p2 (List.mem_cons_of_mem p hp2) this b hb
      | true =>
        have hfresh : ∀ b ∈ invs, ¬ b = backendOf p :=
          hpt p (List.mem_cons_self p rest) htr
        have hnd2 : (invs ++ [backendOf p]).Nodup := by
          rw [List.nodup_append]
          refine ⟨hnd, List.nodup_singleton _, ?_⟩
          intro b hb hbmem
          rcases List.mem_singleton.mp hbmem with rfl
          exact hfresh _ hb rfl
        rcases hout : outcomeOf env (backendOf p) with e | v
        · rw [ttsGo_cons_err env p rest tried le invs e htr hen hout]
          refine ih (p :: tried) (some e) (invs ++ [backendOf p]) hpwrest ?_ hnd2
          intro p2 hp2 hnt2 b hb
          have hp2nt : p2 ∉ tried := fun habs => hnt2 (List.mem_cons_of_mem p habs)
          have hp2ne : ¬ p2 = p := fun habs => hnt2 (habs ▸ List.mem_cons_self p tried)
          rcases List.mem_append.mp hb with hbold | hbnew
          · exact hpt p2 (List.mem_cons_of_mem p hp2) hp2nt b hbold
          · rcases List.mem_singleton.mp hbnew with rfl
            intro habs
            exact hpw p (List.mem_cons_self p rest) p2 (List.mem_cons_of_mem p hp2)
              (fun he => hp2ne he.symm) habs
        · rw [ttsGo_cons_ok env p rest tried le invs v htr hen hout]
          exact hnd2

theorem backendOf_eq_openai (s : String) :
    backendOf s = TTSBackend.openai ↔ s = "openai" := by
  unfold backendOf
  split_ifs with h1 h2 h3 <;> simp_all

theorem backendOf_eq_hf (s : String) :
    backendOf s = TTSBackend.huggingface ↔ s = "huggingface" := by
  unfold backendOf
  split_ifs with h1 h2 h3 <;> simp_all

theorem backendOf_eq_edge (s : String) :
    backendOf s = TTSBackend.edge ↔ s = "edge" := by
  unfold backendOf
  split_ifs with h1 h2 h3 <;> simp_all

theorem backendOf_inj_on_providers (requested p q : String)
    (hp : p ∈ ttsProviders requested) (hq : q ∈ ttsProviders requested)
    (hb : backendOf p = backendOf q) : p = q := by
  cases hcase : backendOf p with
  | openai =>
    have hp2 : p = "openai" := (backendOf_eq_openai p).mp hcase
    have hq2 : q = "openai" := (backendOf_eq_openai q).mp (by rw [← hb, hcase])
    rw [hp2, hq2]
  | huggingface =>
    have hp2 : p = "huggingface" := (backendOf_eq_hf p).mp hcase
    have hq2 : q = "huggingface" := (backendOf_eq_hf q).mp (by rw [← hb, hcase])
    rw [hp2, hq2]
  | edge =>
    have hp2 : p = "edge" := (backendOf_eq_edge p).mp hcase
    have hq2 : q = "edge" := (backendOf_eq_edge q).mp (by rw [← hb, hcase])
    rw [hp2, hq2]
  | kie =>
    have hqcase : backendOf q = TTSBackend.kie := by rw [← hb, hcase]
    have hpns : ¬ p = "openai" ∧ ¬ p = "huggingface" ∧ ¬ p = "edge" := by
      refine ⟨?_, ?_, ?_⟩ <;> intro he <;> rw [he] at hcase <;> exact absurd hcase (by decide)
    have hqns : ¬ q = "openai" ∧ ¬ q = "huggingface" ∧ ¬ q = "edge" := by
      refine ⟨?_, ?_, ?_⟩ <;> intro he <;> rw [he] at hqcase <;> exact absurd hqcase (by decide)
    simp only [ttsProviders, List.mem_cons, List.not_mem_nil, or_false] at hp hq
    rcases hp with rfl | rfl | rfl | rfl
    · rcases hq with rfl | rfl | rfl | rfl
      · rfl
      · exact absurd rfl hqns.1
      · exact absurd rfl hqns.2.1
      · exact absurd rfl hqns.2.2
    · exact absurd rfl hpns.1
    · exact absurd rfl hpns.2.1
    · exact absurd rfl hpns.2.2

/-- C9: narration provider fallback — each backend is invoked at most once
per job in the configured order; on overall failure every invoked backend
failed and the surfaced error message is built from the last invoked
provider's failure; on success the last invoked backend succeeded and
every earlier invocation failed (the loop stops at the first success). -/
theorem tts_fallback_chain (env : TTSEnv) (requested : String) :
    (runTTSFallback env requested).2.Nodup ∧
    (∀ m, (runTTSFallback env requested).1 = Except.error m →
      (∀ b ∈ (runTTSFallback env requested).2, ∃ e, outcomeOf env b = Except.error e) ∧
      ∃ b e, (runTTSFallback env requested).2.getLast? = some b ∧
        outcomeOf env b = Except.error e ∧
        m = "All TTS providers failed. Last error: " ++ e) ∧
    (∀ v, (runTTSFallback env requested).1 = Except.ok v →
      ∃ d b, (runTTSFallback env requested).2 = d ++ [b] ∧
        outcomeOf env b = Except.ok v ∧
        ∀ b2 ∈ d, ∃ e, outcomeOf env b2 = Except.error e) := by
  refine ⟨?_, ?_, ?_⟩
  · apply ttsGo_nodup env (ttsProviders requested) [] none []
    · intro p hp q hq hne habs
      exact hne (backendOf_inj_on_providers requested p q hp hq habs)
    · intro p _ _ b hb
      cases hb
    · exact List.nodup_nil
  · intro m hm
    have heq : ttsGo env (ttsProviders requested) [] none [] =
        (Except.error m, (runTTSFallback env requested).2) := by
      rw [← hm]
      rfl
    obtain ⟨d, hd, herrs, hcases⟩ :=
      ttsGo_error_shape env (ttsProviders requested) [] none [] m
        (runTTSFallback env requested).2 heq
    simp only [List.nil_append] at hd
    have hne : ¬ d = [] := by
      intro habs
      have hlen := ttsGo_invoked env (ttsProviders requested) [] none []
        ⟨"edge", by simp [ttsProviders], by simp, rfl⟩
      rw [heq] at hlen
      rw [hd, habs] at hlen
      simp at hlen
    rcases hcases with ⟨habs, -⟩ | ⟨b, e, hlast, hout, hmsg⟩
    · exact absurd habs hne
    · refine ⟨?_, b, e, ?_, hout, ?_⟩
      · intro b2 hb2
        exact herrs b2 (hd ▸ hb2)
      · rw [hd]
        exact hlast
      · rw [hmsg]
        rfl
  · intro v hv
    have heq : ttsGo env (ttsProviders requested) [] none [] =
        (Except.ok v, (runTTSFallback env requested).2) := by
      rw [← hv]
      rfl
    obtain ⟨d, b, hd, hok, herrs⟩ :=
      ttsGo_success_shape env (ttsProviders requested) [] none [] v
        (runTTSFallback env requested).2 heq
    simp only [List.nil_append] at hd
    exact ⟨d, b, hd, hok, herrs⟩

/-- Witness for C9: with every provider failing, the invocation list has
no duplicates and a last element (kie, openai, huggingface, edge in
order); with the requested provider failing and openai succeeding, the run
succeeds after a nonempty invocation list. -/
theorem tts_fallback_chain_witness :
    (runTTSFallback
      { kie := Except.error ("kie down"), openai := Except.error ("openai down"),
        huggingface := Except.error ("hf down"), edge := Except.error ("edge down"),
        hasOpenAIKey := true, hasHFKey := true } ("kie")).2.Nodup ∧
    ((runTTSFallback
      { kie := Except.error ("kie down"), openai := Except.error ("openai down"),
        huggingface := Except.error ("hf down"), edge := Except.error ("edge down"),
        hasOpenAIKey := true, hasHFKey := true } ("kie")).2.getLast?).isSome = true ∧
    0 < (runTTSFallback
      { kie := Except.error ("kie down"), openai := Except.ok ("vo.mp3"),
        huggingface := Except.error ("hf down"), edge := Except.error ("edge down"),
        hasOpenAIKey := true, hasHFKey := true } ("kie")).2.length := by
  have h1 := tts_fallback_chain
    { kie := Except.error ("kie down"), openai := Except.error ("openai down"),
      huggingface := Except.error ("hf down"), edge := Except.error ("edge down"),
      hasOpenAIKey := true, hasHFKey := true } ("kie")
  have h2 := tts_fallback_chain
    { kie := Except.error ("kie down"), openai := Except.ok ("vo.mp3"),
      huggingface := Except.error ("hf down"), edge := Except.error ("edge down"),
      hasOpenAIKey := true, hasHFKey := true } ("kie")
  obtain ⟨-, b, e, hlast, -, -⟩ := h1.2.1 ("All TTS providers failed. Last error: edge down") rfl
  obtain ⟨d, b2, hd, -, -⟩ := h2.2.2 ("vo.mp3") rfl
  refine ⟨h1.1, ?_, ?_⟩
  · rw [hlast]
    rfl
  · rw [hd]
    simp
